import Mathlib

/-!
Shallow embedding of the jucacaju-api backend (src/server.js, the sqlite
variant, and src/server-production.js, the postgres variant).

The pantry table is modelled as a list of rows plus a next-id counter
(`AUTOINCREMENT`).  `created_at` is wall-clock data and is not modelled; row
identity is carried by `id`.  Storage operations performed by the ingredient
reconciler are additionally recorded in a ghost log (`StoreOp`) so that
claims about which lookups/inserts were attempted can be stated; the log has
no influence on the pantry state or the counters.
-/

/-- A row of the `pantry` table (server.js lines 30-35).  `has_item` is the
sqlite 0/1 integer, modelled as a `Bool`. -/
structure PantryRow where
  id : Nat
  ingredient : String
  has_item : Bool
deriving Repr, DecidableEq

/-- The `pantry` table: its rows in insertion order plus the next
`AUTOINCREMENT` id. -/
structure PantryDb where
  rows : List PantryRow
  nextId : Nat
deriving Repr, DecidableEq

/-- `SELECT * FROM pantry WHERE ingredient = ?` followed by `db.get`, which
yields the first matching row (server.js lines 104-107).  Sqlite TEXT
comparison is the default BINARY collation, i.e. exact string equality. -/
def pantryGet (db : PantryDb) (key : String) : Option PantryRow :=
  db.rows.find? (fun r => r.ingredient == key)

/-- `INSERT INTO pantry (ingredient, has_item) VALUES (?, ?)` (server.js
lines 119-121; the reconciler always passes `has_item = 0`).  The reconciler
only calls this after `pantryGet` returned no row, so the UNIQUE constraint
on `ingredient` cannot fire and the insert is modelled as total. -/
def pantryInsert (db : PantryDb) (key : String) (has : Bool) : PantryDb :=
  { rows := db.rows ++ [{ id := db.nextId, ingredient := key, has_item := has }],
    nextId := db.nextId + 1 }

/-- `INSERT OR REPLACE INTO pantry (ingredient, has_item) VALUES (?, ?)`
(server.js lines 221-224): sqlite deletes every row conflicting on the
UNIQUE `ingredient` column and inserts a fresh row, which receives a fresh
rowid. -/
def upsertSqlite (db : PantryDb) (key : String) (has : Bool) : PantryDb :=
  { rows := db.rows.filter (fun r => r.ingredient != key) ++
      [{ id := db.nextId, ingredient := key, has_item := has }],
    nextId := db.nextId + 1 }

/-- `INSERT INTO pantry (ingredient, has_item) VALUES ($1, $2) ON CONFLICT
(ingredient) DO UPDATE SET has_item = $2` (server-production.js lines
171-174): on conflict the existing row keeps its identity and only
`has_item` is updated. -/
def upsertPostgres (db : PantryDb) (key : String) (has : Bool) : PantryDb :=
  if (pantryGet db key).isSome then
    { db with rows := db.rows.map (fun r =>
        if r.ingredient == key then { r with has_item := has } else r) }
  else
    { rows := db.rows ++ [{ id := db.nextId, ingredient := key, has_item := has }],
      nextId := db.nextId + 1 }

/-- The declared column default of `pantry.has_item` in the sqlite DDL
(`has_item BOOLEAN DEFAULT 1`, server.js line 33). -/
def pantryHasItemDefault : Bool := true

/-- A JavaScript value as it may appear for the `has_item` field of a
request body (absent field = `undefined`). -/
inductive JsVal where
  | undef
  | null
  | bool (b : Bool)
  | num (n : Int)
  | str (s : String)
deriving Repr, DecidableEq

/-- JavaScript truthiness of a `JsVal` (`has_item ? 1 : 0`). -/
def truthy : JsVal → Bool
  | JsVal.undef => false
  | JsVal.null => false
  | JsVal.bool b => b
  | JsVal.num n => n != 0
  | JsVal.str s => s != ""

/-- The `POST /api/pantry` route of server.js (lines 213-231): reject a
falsy (empty) `ingredient` with a 400 client error (`none`), otherwise
upsert the raw, un-normalized key with `has_item ? 1 : 0`. -/
def postPantryRoute (db : PantryDb) (ingredient : String) (has_item : JsVal) :
    Option PantryDb :=
  if ingredient == "" then none
  else some (upsertSqlite db ingredient (truthy has_item))

/-- `split(",")` over the character sequence: cut at every comma, keeping
empty segments (as JavaScript does; `"".split(",")` is `[""]`).  `acc`
holds the characters of the current segment in reverse. -/
def jsSplitCommaAux : List Char → List Char → List String
  | [], acc => [String.mk acc.reverse]
  | c :: cs, acc =>
    if c = ',' then String.mk acc.reverse :: jsSplitCommaAux cs []
    else jsSplitCommaAux cs (c :: acc)

/-- JavaScript `s.split(",")`. -/
def jsSplitComma (s : String) : List String := jsSplitCommaAux s.data []

/-- JavaScript `s.trim()`: drop leading and trailing whitespace (the
whitespace class is modelled by `Char.isWhitespace`). -/
def jsTrim (s : String) : String :=
  String.mk (((s.data.dropWhile Char.isWhitespace).reverse.dropWhile
    Char.isWhitespace).reverse)

/-- JavaScript `s.toLowerCase()`, modelled characterwise by
`Char.toLower`. -/
def jsToLower (s : String) : String := String.mk (s.data.map Char.toLower)

/-- The ingredient normalizer (server.js lines 93-96):
`ingredients.split(",").map(i => i.trim().toLowerCase()).filter(i => i.length > 0)`. -/
def ingredientListOf (ingredients : String) : List String :=
  ((jsSplitComma ingredients).map (fun ingredient => jsToLower (jsTrim ingredient))).filter
    (fun ingredient => ingredient.length > 0)

/-- Ghost record of a storage operation attempted by the reconciler:
the `SELECT` issued for a key, or the `INSERT` issued for a key. -/
inductive StoreOp where
  | get (key : String)
  | insert (key : String) (has : Bool)
deriving Repr, DecidableEq

/-- The key an operation is about. -/
def opKey : StoreOp → String
  | StoreOp.get k => k
  | StoreOp.insert k _ => k

/-- The JSON body returned by the process-ingredients route on success
(server.js lines 141-145). -/
structure Summary where
  message : String
  addedToShoppingList : Nat
  ingredients : List String
deriving Repr, DecidableEq

/-- One step of the reconciler, `processIngredient` (server.js lines
102-135): look the key up; if found, succeed without mutation; otherwise
insert it with `has_item = 0`.  `gFail`/`iFail` inject a storage-layer
failure into the lookup resp. the insert; `none` means the step surfaced a
failure.  The returned `Bool` tells whether a row was inserted, and the
list records the storage operations attempted. -/
def processIngredient (gFail iFail : Bool) (ing : String) (db : PantryDb) :
    Option (Bool × PantryDb) × List StoreOp :=
  if gFail then (none, [StoreOp.get ing])
  else
    match pantryGet db ing with
    | some _ => (some (false, db), [StoreOp.get ing])
    | none =>
      if iFail then (none, [StoreOp.get ing, StoreOp.insert ing false])
      else (some (true, pantryInsert db ing false),
            [StoreOp.get ing, StoreOp.insert ing false])

/-- Result of running the sequential loop `processNext` to its end or to
the first storage failure. -/
structure LoopResult where
  ok : Bool
  processedCount : Nat
  addedToShoppingList : Nat
  pantry : PantryDb
  ops : List StoreOp
deriving Repr, DecidableEq

/-- The sequential loop `processNext` (server.js lines 137-159): process
the remaining ingredients in order, threading the position `idx` (feeding
the failure schedules `gf`/`insf`), the two counters, the pantry and the
ghost op log.  A failing step stops the loop with `ok := false`. -/
def processNextLoop (gf insf : Nat → Bool) :
    List String → Nat → Nat → Nat → PantryDb → List StoreOp → LoopResult
  | [], _, p, a, db, ops =>
    { ok := true, processedCount := p, addedToShoppingList := a,
      pantry := db, ops := ops }
  | ing :: rest, idx, p, a, db, ops =>
    match processIngredient (gf idx) (insf idx) ing db with
    | (none, stepOps) =>
      { ok := false, processedCount := p, addedToShoppingList := a,
        pantry := db, ops := ops ++ stepOps }
    | (some (inserted, db2), stepOps) =>
      processNextLoop gf insf rest (idx + 1) (p + 1)
        (if inserted then a + 1 else a) db2 (ops ++ stepOps)

/-- The failure-free schedule: no storage call fails. -/
def noFailure : Nat → Bool := fun _ => false

/-- Outcome of one reconciliation call: the summary (present exactly when
the loop completed; on a storage failure the route answers 500 and no
summary is ever sent), the final pantry, the ghost op log and the final
counter values. -/
structure ReconcileResult where
  summary : Option Summary
  pantry : PantryDb
  ops : List StoreOp
  processedCount : Nat
  addedToShoppingList : Nat
deriving Repr, DecidableEq

/-- The whole reconciliation of a normalized ingredient list (server.js
lines 98-159): run the loop from index 0 with both counters 0; on
completion answer with the `message`/`addedToShoppingList`/`ingredients`
JSON body. -/
def reconcile (gf insf : Nat → Bool) (ingredientList : List String)
    (db : PantryDb) : ReconcileResult :=
  let r := processNextLoop gf insf ingredientList 0 0 0 db []
  { summary :=
      if r.ok then
        some { message := "Processados " ++ toString r.processedCount ++ " ingredientes",
               addedToShoppingList := r.addedToShoppingList,
               ingredients := ingredientList }
      else none,
    pantry := r.pantry, ops := r.ops,
    processedCount := r.processedCount,
    addedToShoppingList := r.addedToShoppingList }

/-- A JSON field value appearing in the success body of the
process-ingredients route. -/
inductive JsonVal where
  | str (s : String)
  | num (n : Nat)
  | list (l : List String)
deriving Repr, DecidableEq

/-- The success body as an association list of JSON fields, exactly the
object literal of server.js lines 141-145. -/
def summaryJson (s : Summary) : List (String × JsonVal) :=
  [("message", JsonVal.str s.message),
   ("addedToShoppingList", JsonVal.num s.addedToShoppingList),
   ("ingredients", JsonVal.list s.ingredients)]

/-- The sequence of storage operations the failure-free loop performs for
one particular key, as a function of whether the key is already present
when the loop starts: each occurrence is looked up, and the first
occurrence of an absent key is additionally inserted (after which the key
is present). -/
def keyTrace (key : String) : Bool → List String → List StoreOp
  | _, [] => []
  | present, ing :: rest =>
    if ing = key then
      if present then StoreOp.get key :: keyTrace key true rest
      else StoreOp.get key :: StoreOp.insert key false :: keyTrace key true rest
    else keyTrace key present rest

/-- Continuation of `joinCommaSpec`: a comma before each further piece. -/
def joinCommaTail : List String → List Char
  | [] => []
  | piece :: rest => ',' :: (piece.data ++ joinCommaTail rest)

/-- Spec-side reassembly of comma-separated pieces: interpose a comma
between the pieces and concatenate their characters.  Together with
comma-freeness of every piece this characterizes splitting on `,`. -/
def joinCommaSpec : List String → List Char
  | [] => []
  | piece :: rest => piece.data ++ joinCommaTail rest

/-- Response of `POST /api/recipes/:id/process-ingredients` (server.js
lines 83-160): HTTP status, pantry afterwards, storage operations
performed, and the summary body when one was sent. -/
structure RouteResult where
  status : Nat
  pantry : PantryDb
  ops : List StoreOp
  summary : Option Summary
deriving Repr, DecidableEq

/-- The process-ingredients route: a falsy `ingredients` body field
(absent, modelled `none`, or the empty string) is rejected with 400 before
any storage access; otherwise the string is normalized and reconciled, and
the result is 200 with the summary, or 500 on a storage failure. -/
def processIngredientsRoute (gf insf : Nat → Bool) (db : PantryDb)
    (ingredients : Option String) : RouteResult :=
  match ingredients with
  | none => { status := 400, pantry := db, ops := [], summary := none }
  | some s =>
    if s == "" then { status := 400, pantry := db, ops := [], summary := none }
    else
      let r := reconcile gf insf (ingredientListOf s) db
      match r.summary with
      | some sm => { status := 200, pantry := r.pantry, ops := r.ops, summary := some sm }
      | none => { status := 500, pantry := r.pantry, ops := r.ops, summary := none }

/-! ### Step lemmas for the reconciler loop -/

theorem loop_nil (gf insf : Nat → Bool) (idx p a : Nat) (db : PantryDb)
    (ops : List StoreOp) :
    processNextLoop gf insf [] idx p a db ops =
      { ok := true, processedCount := p, addedToShoppingList := a,
        pantry := db, ops := ops } := rfl

theorem loop_cons_getfail {gf insf : Nat → Bool} {idx : Nat} (hg : gf idx = true)
    (ing : String) (rest : List String) (p a : Nat) (db : PantryDb)
    (ops : List StoreOp) :
    processNextLoop gf insf (ing :: rest) idx p a db ops =
      { ok := false, processedCount := p, addedToShoppingList := a,
        pantry := db, ops := ops ++ [StoreOp.get ing] } := by
  simp [processNextLoop, processIngredient, hg]

theorem loop_cons_found {gf insf : Nat → Bool} {idx : Nat} {db : PantryDb}
    {ing : String} {r0 : PantryRow} (hg : gf idx = false)
    (hrow : pantryGet db ing = some r0)
    (rest : List String) (p a : Nat) (ops : List StoreOp) :
    processNextLoop gf insf (ing :: rest) idx p a db ops =
      processNextLoop gf insf rest (idx + 1) (p + 1) a db
        (ops ++ [StoreOp.get ing]) := by
  simp [processNextLoop, processIngredient, hg, hrow]

theorem loop_cons_new {gf insf : Nat → Bool} {idx : Nat} {db : PantryDb}
    {ing : String} (hg : gf idx = false) (hi : insf idx = false)
    (hrow : pantryGet db ing = none)
    (rest : List String) (p a : Nat) (ops : List StoreOp) :
    processNextLoop gf insf (ing :: rest) idx p a db ops =
      processNextLoop gf insf rest (idx + 1) (p + 1) (a + 1)
        (pantryInsert db ing false)
        (ops ++ [StoreOp.get ing, StoreOp.insert ing false]) := by
  simp [processNextLoop, processIngredient, hg, hi, hrow]

theorem loop_cons_insfail {gf insf : Nat → Bool} {idx : Nat} {db : PantryDb}
    {ing : String} (hg : gf idx = false) (hi : insf idx = true)
    (hrow : pantryGet db ing = none)
    (rest : List String) (p a : Nat) (ops : List StoreOp) :
    processNextLoop gf insf (ing :: rest) idx p a db ops =
      { ok := false, processedCount := p, addedToShoppingList := a,
        pantry := db, ops := ops ++ [StoreOp.get ing, StoreOp.insert ing false] } := by
  simp [processNextLoop, processIngredient, hg, hi, hrow]

/-! ### Structural lemmas about the reconciler loop -/

/-- The pantry only ever grows: the loop leaves the initial rows as a
prefix, whatever the failure schedule. -/
theorem loop_rows_extend (gf insf : Nat → Bool) (l : List String)
    (idx p a : Nat) (db : PantryDb) (ops : List StoreOp) :
    ∃ ext, (processNextLoop gf insf l idx p a db ops).pantry.rows =
      db.rows ++ ext := by
  induction l generalizing idx p a db ops with
  | nil => exact ⟨[], by simp [loop_nil]⟩
  | cons ing rest ih =>
    cases hg : gf idx with
    | true => exact ⟨[], by simp [loop_cons_getfail hg]⟩
    | false =>
      cases hrow : pantryGet db ing with
      | some r0 => rw [loop_cons_found hg hrow]; exact ih ..
      | none =>
        cases hi : insf idx with
        | true => exact ⟨[], by simp [loop_cons_insfail hg hi hrow]⟩
        | false =>
          rw [loop_cons_new hg hi hrow]
          obtain ⟨ext, hext⟩ := ih (idx + 1) (p + 1) (a + 1)
            (pantryInsert db ing false)
            (ops ++ [StoreOp.get ing, StoreOp.insert ing false])
          exact ⟨{ id := db.nextId, ingredient := ing, has_item := false } :: ext,
            by rw [hext]; simp [pantryInsert]⟩

/-- With the failure-free schedule the loop always completes. -/
theorem loop_ok_clean (l : List String) (idx p a : Nat) (db : PantryDb)
    (ops : List StoreOp) :
    (processNextLoop noFailure noFailure l idx p a db ops).ok = true := by
  induction l generalizing idx p a db ops with
  | nil => simp [loop_nil]
  | cons ing rest ih =>
    cases hrow : pantryGet db ing with
    | some r0 => rw [loop_cons_found rfl hrow]; exact ih ..
    | none => rw [loop_cons_new rfl rfl hrow]; exact ih ..

/-- With the failure-free schedule every ingredient is processed. -/
theorem loop_processed_clean (l : List String) (idx p a : Nat) (db : PantryDb)
    (ops : List StoreOp) :
    (processNextLoop noFailure noFailure l idx p a db ops).processedCount =
      p + l.length := by
  induction l generalizing idx p a db ops with
  | nil => simp [loop_nil]
  | cons ing rest ih =>
    cases hrow : pantryGet db ing with
    | some r0 =>
      rw [loop_cons_found rfl hrow, ih]
      simp only [List.length_cons]
      omega
    | none =>
      rw [loop_cons_new rfl rfl hrow, ih]
      simp only [List.length_cons]
      omega

/-- The added-to-shopping-list counter counts exactly the rows the loop
added to the pantry, whatever the failure schedule. -/
theorem loop_added_rows (gf insf : Nat → Bool) (l : List String)
    (idx p a : Nat) (db : PantryDb) (ops : List StoreOp) :
    (processNextLoop gf insf l idx p a db ops).addedToShoppingList +
        db.rows.length =
      a + (processNextLoop gf insf l idx p a db ops).pantry.rows.length := by
  induction l generalizing idx p a db ops with
  | nil => simp [loop_nil]
  | cons ing rest ih =>
    cases hg : gf idx with
    | true => simp [loop_cons_getfail hg]
    | false =>
      cases hrow : pantryGet db ing with
      | some r0 => rw [loop_cons_found hg hrow]; exact ih ..
      | none =>
        cases hi : insf idx with
        | true => simp [loop_cons_insfail hg hi hrow]
        | false =>
          rw [loop_cons_new hg hi hrow]
          have h := ih (idx + 1) (p + 1) (a + 1) (pantryInsert db ing false)
            (ops ++ [StoreOp.get ing, StoreOp.insert ing false])
          have hlen : (pantryInsert db ing false).rows.length =
              db.rows.length + 1 := by
            simp [pantryInsert]
          omega

/-- The failure-free loop does not look at the position index. -/
theorem loop_nf_idx (l : List String) (idx idx' p a : Nat) (db : PantryDb)
    (ops : List StoreOp) :
    processNextLoop noFailure noFailure l idx p a db ops =
      processNextLoop noFailure noFailure l idx' p a db ops := by
  induction l generalizing idx idx' p a db ops with
  | nil => rfl
  | cons ing rest ih =>
    cases hrow : pantryGet db ing with
    | some r0 => rw [loop_cons_found rfl hrow, loop_cons_found rfl hrow]; exact ih ..
    | none => rw [loop_cons_new rfl rfl hrow, loop_cons_new rfl rfl hrow]; exact ih ..

/-- Looking up the freshly inserted key finds the fresh row. -/
theorem pantryGet_insert_self {db : PantryDb} {ing : String}
    (h : pantryGet db ing = none) (has : Bool) :
    pantryGet (pantryInsert db ing has) ing =
      some { id := db.nextId, ingredient := ing, has_item := has } := by
  simp only [pantryGet, pantryInsert] at *
  rw [List.find?_append, h]
  simp

/-- Inserting a different key does not change a lookup. -/
theorem pantryGet_insert_ne {key ing : String} (h : key ≠ ing)
    (db : PantryDb) (has : Bool) :
    pantryGet (pantryInsert db ing has) key = pantryGet db key := by
  simp only [pantryGet, pantryInsert]
  rw [List.find?_append]
  have hne : (ing == key) = false := by
    simp [Ne.symm h]
  simp [List.find?, hne]

/-- A key present before the loop is still present afterwards, whatever the
failure schedule. -/
theorem pantryGet_mono (gf insf : Nat → Bool) (l : List String)
    (idx p a : Nat) (db : PantryDb) (ops : List StoreOp) (key : String)
    (h : (pantryGet db key).isSome = true) :
    (pantryGet (processNextLoop gf insf l idx p a db ops).pantry key).isSome
      = true := by
  obtain ⟨ext, hext⟩ := loop_rows_extend gf insf l idx p a db ops
  obtain ⟨r, hr⟩ := Option.isSome_iff_exists.mp h
  simp only [pantryGet] at *
  rw [hext, List.find?_append, hr]
  simp

/-- If the loop completed, it processed the whole remaining list. -/
theorem loop_ok_processed (gf insf : Nat → Bool) (l : List String)
    (idx p a : Nat) (db : PantryDb) (ops : List StoreOp)
    (h : (processNextLoop gf insf l idx p a db ops).ok = true) :
    (processNextLoop gf insf l idx p a db ops).processedCount =
      p + l.length := by
  induction l generalizing idx p a db ops with
  | nil => simp [loop_nil]
  | cons ing rest ih =>
    cases hg : gf idx with
    | true => rw [loop_cons_getfail hg] at h; simp at h
    | false =>
      cases hrow : pantryGet db ing with
      | some r0 =>
        rw [loop_cons_found hg hrow] at h ⊢
        rw [ih _ _ _ _ _ h]
        simp only [List.length_cons]
        omega
      | none =>
        cases hi : insf idx with
        | true => rw [loop_cons_insfail hg hi hrow] at h; simp at h
        | false =>
          rw [loop_cons_new hg hi hrow] at h ⊢
          rw [ih _ _ _ _ _ h]
          simp only [List.length_cons]
          omega

/-- If the loop completed, every ingredient of the list is present in the
final pantry. -/
theorem loop_ok_all_present (gf insf : Nat → Bool) (l : List String)
    (idx p a : Nat) (db : PantryDb) (ops : List StoreOp)
    (h : (processNextLoop gf insf l idx p a db ops).ok = true) :
    ∀ x ∈ l,
      (pantryGet (processNextLoop gf insf l idx p a db ops).pantry x).isSome
        = true := by
  induction l generalizing idx p a db ops with
  | nil => simp
  | cons ing rest ih =>
    intro x hx
    cases hg : gf idx with
    | true => rw [loop_cons_getfail hg] at h; simp at h
    | false =>
      cases hrow : pantryGet db ing with
      | some r0 =>
        rw [loop_cons_found hg hrow] at h ⊢
        rcases List.mem_cons.mp hx with hx | hx
        · subst hx
          exact pantryGet_mono _ _ _ _ _ _ _ _ _ (by simp [hrow])
        · exact ih _ _ _ _ _ h x hx
      | none =>
        cases hi : insf idx with
        | true => rw [loop_cons_insfail hg hi hrow] at h; simp at h
        | false =>
          rw [loop_cons_new hg hi hrow] at h ⊢
          rcases List.mem_cons.mp hx with hx | hx
          · subst hx
            exact pantryGet_mono _ _ _ _ _ _ _ _ _ (by simp [pantryGet_insert_self hrow])
          · exact ih _ _ _ _ _ h x hx

/-- If every ingredient of the list is already present, the loop never
mutates the pantry and never increments the added counter, whatever the
failure schedule. -/
theorem loop_all_present_frozen (gf insf : Nat → Bool) (l : List String)
    (idx p a : Nat) (db : PantryDb) (ops : List StoreOp)
    (h : ∀ x ∈ l, (pantryGet db x).isSome = true) :
    (processNextLoop gf insf l idx p a db ops).addedToShoppingList = a ∧
      (processNextLoop gf insf l idx p a db ops).pantry = db := by
  induction l generalizing idx p a ops with
  | nil => simp [loop_nil]
  | cons ing rest ih =>
    cases hg : gf idx with
    | true => simp [loop_cons_getfail hg]
    | false =>
      obtain ⟨r0, hrow⟩ := Option.isSome_iff_exists.mp
        (h ing (List.mem_cons_self ing rest))
      rw [loop_cons_found hg hrow]
      exact ih _ _ _ _ (fun x hx => h x (List.mem_cons_of_mem ing hx))

/-- If no storage call fails strictly before relative position `k` and the
lookup at position `k` fails, the loop behaves like the failure-free loop
on the first `k` ingredients followed by the one failing lookup: nothing
at a later position is looked up or inserted, and the inserts of the first
`k` positions stay committed. -/
theorem loop_getfail_split (gf insf : Nat → Bool) (l : List String)
    (k idx p a : Nat) (db : PantryDb) (ops : List StoreOp)
    (hk : k < l.length)
    (hclean : ∀ j, j < k → gf (idx + j) = false ∧ insf (idx + j) = false)
    (hfail : gf (idx + k) = true) :
    processNextLoop gf insf l idx p a db ops =
      { ok := false,
        processedCount :=
          (processNextLoop noFailure noFailure (l.take k) idx p a db ops).processedCount,
        addedToShoppingList :=
          (processNextLoop noFailure noFailure (l.take k) idx p a db ops).addedToShoppingList,
        pantry :=
          (processNextLoop noFailure noFailure (l.take k) idx p a db ops).pantry,
        ops :=
          (processNextLoop noFailure noFailure (l.take k) idx p a db ops).ops ++
            [StoreOp.get (l.get ⟨k, hk⟩)] } := by
  induction l generalizing k idx p a db ops with
  | nil => simp at hk
  | cons ing rest ih =>
    cases k with
    | zero =>
      rw [loop_cons_getfail (by simpa using hfail)]
      simp [loop_nil]
    | succ j =>
      have h0 := hclean 0 (Nat.succ_pos j)
      simp only [Nat.add_zero] at h0
      have hk' : j < rest.length := by simpa using hk
      have hclean' : ∀ j', j' < j →
          gf (idx + 1 + j') = false ∧ insf (idx + 1 + j') = false := by
        intro j' hj'
        have e : idx + 1 + j' = idx + (j' + 1) := by omega
        rw [e]
        exact hclean (j' + 1) (by omega)
      have hfail' : gf (idx + 1 + j) = true := by
        have e : idx + 1 + j = idx + (j + 1) := by omega
        rw [e]
        exact hfail
      rw [List.take_succ_cons]
      cases hrow : pantryGet db ing with
      | some r0 =>
        rw [loop_cons_found h0.1 hrow, loop_cons_found rfl hrow]
        exact ih j (idx + 1) (p + 1) a db (ops ++ [StoreOp.get ing])
          hk' hclean' hfail'
      | none =>
        rw [loop_cons_new h0.1 h0.2 hrow, loop_cons_new rfl rfl hrow]
        exact ih j (idx + 1) (p + 1) (a + 1) (pantryInsert db ing false)
          (ops ++ [StoreOp.get ing, StoreOp.insert ing false])
          hk' hclean' hfail'

/-- Same as `loop_getfail_split` for a failure of the insert at position
`k`: this requires the key at position `k` to be absent from the pantry
reached after the first `k` positions, so that the insert is attempted at
all. -/
theorem loop_insfail_split (gf insf : Nat → Bool) (l : List String)
    (k idx p a : Nat) (db : PantryDb) (ops : List StoreOp)
    (hk : k < l.length)
    (hclean : ∀ j, j < k → gf (idx + j) = false ∧ insf (idx + j) = false)
    (hg : gf (idx + k) = false) (hfail : insf (idx + k) = true)
    (habs : pantryGet
      (processNextLoop noFailure noFailure (l.take k) idx p a db ops).pantry
      (l.get ⟨k, hk⟩) = none) :
    processNextLoop gf insf l idx p a db ops =
      { ok := false,
        processedCount :=
          (processNextLoop noFailure noFailure (l.take k) idx p a db ops).processedCount,
        addedToShoppingList :=
          (processNextLoop noFailure noFailure (l.take k) idx p a db ops).addedToShoppingList,
        pantry :=
          (processNextLoop noFailure noFailure (l.take k) idx p a db ops).pantry,
        ops :=
          (processNextLoop noFailure noFailure (l.take k) idx p a db ops).ops ++
            [StoreOp.get (l.get ⟨k, hk⟩),
             StoreOp.insert (l.get ⟨k, hk⟩) false] } := by
  induction l generalizing k idx p a db ops with
  | nil => simp at hk
  | cons ing rest ih =>
    cases k with
    | zero =>
      simp only [List.take_zero, loop_nil] at habs ⊢
      rw [loop_cons_insfail (by simpa using hg) (by simpa using hfail)
        (by simpa using habs)]
      simp
    | succ j =>
      have h0 := hclean 0 (Nat.succ_pos j)
      simp only [Nat.add_zero] at h0
      have hk' : j < rest.length := by simpa using hk
      have hclean' : ∀ j', j' < j →
          gf (idx + 1 + j') = false ∧ insf (idx + 1 + j') = false := by
        intro j' hj'
        have e : idx + 1 + j' = idx + (j' + 1) := by omega
        rw [e]
        exact hclean (j' + 1) (by omega)
      have hg' : gf (idx + 1 + j) = false := by
        have e : idx + 1 + j = idx + (j + 1) := by omega
        rw [e]
        exact hg
      have hfail' : insf (idx + 1 + j) = true := by
        have e : idx + 1 + j = idx + (j + 1) := by omega
        rw [e]
        exact hfail
      rw [List.take_succ_cons] at habs ⊢
      cases hrow : pantryGet db ing with
      | some r0 =>
        rw [loop_cons_found rfl hrow] at habs
        rw [loop_cons_found h0.1 hrow, loop_cons_found rfl hrow]
        exact ih j (idx + 1) (p + 1) a db (ops ++ [StoreOp.get ing])
          hk' hclean' hg' hfail' habs
      | none =>
        rw [loop_cons_new rfl rfl hrow] at habs
        rw [loop_cons_new h0.1 h0.2 hrow, loop_cons_new rfl rfl hrow]
        exact ih j (idx + 1) (p + 1) (a + 1) (pantryInsert db ing false)
          (ops ++ [StoreOp.get ing, StoreOp.insert ing false])
          hk' hclean' hg' hfail' habs

/-- For a key that is present from the start, the trace is one lookup per
occurrence. -/
theorem keyTrace_present (key : String) (l : List String) :
    keyTrace key true l = List.replicate (l.count key) (StoreOp.get key) := by
  induction l with
  | nil => simp [keyTrace]
  | cons ing rest ih =>
    by_cases heq : ing = key
    · simp [keyTrace, heq, List.count_cons, ih, List.replicate_succ]
    · simp [keyTrace, heq, List.count_cons, ih]

/-- For a key that is absent at the start and occurs in the list, the trace
is: one lookup plus one insert for the first occurrence, then one lookup
for each further occurrence. -/
theorem keyTrace_absent (key : String) (l : List String)
    (h : 1 ≤ l.count key) :
    keyTrace key false l =
      StoreOp.get key :: StoreOp.insert key false ::
        List.replicate (l.count key - 1) (StoreOp.get key) := by
  induction l with
  | nil => simp at h
  | cons ing rest ih =>
    by_cases heq : ing = key
    · simp [keyTrace, heq, List.count_cons, keyTrace_present]
    · have h' : 1 ≤ rest.count key := by
        simpa [List.count_cons, heq] using h
      simp [keyTrace, heq, List.count_cons, ih h']

/-- The ghost op log of the failure-free loop, restricted to one key, is
the accumulated log's restriction followed by that key's trace. -/
theorem loop_keyops_clean (key : String) (l : List String)
    (idx p a : Nat) (db : PantryDb) (ops : List StoreOp) :
    (processNextLoop noFailure noFailure l idx p a db ops).ops.filter
        (fun op => opKey op == key) =
      ops.filter (fun op => opKey op == key) ++
        keyTrace key (pantryGet db key).isSome l := by
  induction l generalizing idx p a db ops with
  | nil => simp [loop_nil, keyTrace]
  | cons ing rest ih =>
    cases hrow : pantryGet db ing with
    | some r0 =>
      rw [loop_cons_found rfl hrow, ih]
      by_cases heq : ing = key
      · subst heq
        simp [keyTrace, hrow, List.filter_append, opKey]
      · simp [keyTrace, heq, List.filter_append, opKey]
    | none =>
      rw [loop_cons_new rfl rfl hrow, ih]
      by_cases heq : ing = key
      · subst heq
        simp [keyTrace, hrow, pantryGet_insert_self hrow,
          List.filter_append, opKey]
      · rw [pantryGet_insert_ne (Ne.symm heq)]
        simp [keyTrace, heq, List.filter_append, opKey]

/-- Row counting for one key under the failure-free loop: an absent key
occurring in the list gains exactly one row, every other key's row count
is unchanged. -/
theorem loop_keycount_clean (key : String) (l : List String)
    (idx p a : Nat) (db : PantryDb) (ops : List StoreOp) :
    ((processNextLoop noFailure noFailure l idx p a db ops).pantry.rows.filter
        (fun r => r.ingredient == key)).length =
      (db.rows.filter (fun r => r.ingredient == key)).length +
        (if (pantryGet db key).isSome = false ∧ key ∈ l then 1 else 0) := by
  induction l generalizing idx p a db ops with
  | nil => simp [loop_nil]
  | cons ing rest ih =>
    cases hrow : pantryGet db ing with
    | some r0 =>
      rw [loop_cons_found rfl hrow, ih]
      cases hp : (pantryGet db key).isSome with
      | true => simp [hp]
      | false =>
        have hne : ing ≠ key := by
          intro he
          subst he
          rw [hrow] at hp
          simp at hp
        simp [hp, List.mem_cons, hne, Ne.symm hne]
    | none =>
      rw [loop_cons_new rfl rfl hrow, ih]
      by_cases heq : ing = key
      · subst heq
        rw [pantryGet_insert_self hrow]
        simp [pantryInsert, List.filter_append, hrow]
      · rw [pantryGet_insert_ne (Ne.symm heq)]
        have hne : ((⟨db.nextId, ing, false⟩ : PantryRow).ingredient == key)
            = false := by
          simp [heq]
        simp [pantryInsert, List.filter_append, hne, List.mem_cons,
          heq, Ne.symm heq]

/-! ### Lemmas about the normalizer's split -/

/-- The splitter never produces an empty list of pieces. -/
theorem jsSplitCommaAux_ne_nil (cs acc : List Char) :
    jsSplitCommaAux cs acc ≠ [] := by
  induction cs generalizing acc with
  | nil => simp [jsSplitCommaAux]
  | cons c cs ih =>
    by_cases hc : c = ','
    · simp [jsSplitCommaAux, hc]
    · simp only [jsSplitCommaAux, if_neg hc]
      exact ih _

/-- On a nonempty list of pieces, the tail reassembly is a comma followed
by the full reassembly. -/
theorem joinCommaTail_eq (l : List String) (h : l ≠ []) :
    joinCommaTail l = ',' :: joinCommaSpec l := by
  cases l with
  | nil => exact absurd rfl h
  | cons piece rest => rfl

/-- Reassembling the splitter's pieces with commas restores the input. -/
theorem joinCommaSpec_jsSplitCommaAux (cs acc : List Char) :
    joinCommaSpec (jsSplitCommaAux cs acc) = acc.reverse ++ cs := by
  induction cs generalizing acc with
  | nil => simp [jsSplitCommaAux, joinCommaSpec, joinCommaTail]
  | cons c cs ih =>
    by_cases hc : c = ','
    · subst hc
      rw [jsSplitCommaAux, if_pos rfl, joinCommaSpec,
        joinCommaTail_eq _ (jsSplitCommaAux_ne_nil cs []), ih]
      simp
    · rw [jsSplitCommaAux, if_neg hc, ih]
      simp

/-- No piece produced by the splitter contains a comma (provided the
accumulator does not). -/
theorem jsSplitCommaAux_no_comma (cs : List Char) :
    ∀ acc : List Char, ',' ∉ acc →
      ∀ piece ∈ jsSplitCommaAux cs acc, ',' ∉ piece.data := by
  induction cs with
  | nil =>
    intro acc hacc piece hp
    simp only [jsSplitCommaAux, List.mem_singleton] at hp
    subst hp
    simpa using hacc
  | cons c cs ih =>
    intro acc hacc piece hp
    by_cases hc : c = ','
    · subst hc
      rw [jsSplitCommaAux, if_pos rfl] at hp
      rcases List.mem_cons.mp hp with hp | hp
      · subst hp
        simpa using hacc
      · exact ih [] (by simp) piece hp
    · rw [jsSplitCommaAux, if_neg hc] at hp
      refine ih (c :: acc) ?_ piece hp
      simp only [List.mem_cons]
      rintro (h | h)
      · exact hc h.symm
      · exact hacc h

/-! ### Lemmas about the two upsert variants -/

/-- Filtering out a key then searching for a different key is the same as
searching the original rows. -/
theorem find?_filter_ne_key (rows : List PantryRow) (k key : String)
    (h : k ≠ key) :
    (rows.filter (fun r => r.ingredient != key)).find?
        (fun r => r.ingredient == k) =
      rows.find? (fun r => r.ingredient == k) := by
  induction rows with
  | nil => rfl
  | cons r rows ih =>
    by_cases hrk : r.ingredient = key
    · have h1 : (r.ingredient != key) = false := by simp [hrk]
      have h2 : (r.ingredient == k) = false := by
        simp [hrk]
        exact fun he => h he.symm
      simp [List.filter_cons, h1, List.find?_cons, h2, ih]
    · have h1 : (r.ingredient != key) = true := by simp [hrk]
      simp only [List.filter_cons, h1, if_true]
      by_cases hk : r.ingredient = k
      · simp [List.find?_cons, hk]
      · have h2 : (r.ingredient == k) = false := by simp [hk]
        simp [List.find?_cons, h2, ih]

/-- After a sqlite `INSERT OR REPLACE`, looking up the upserted key finds
the fresh row (fresh id, requested `has_item`). -/
theorem upsertSqlite_get_self (db : PantryDb) (key : String) (has : Bool) :
    pantryGet (upsertSqlite db key has) key =
      some { id := db.nextId, ingredient := key, has_item := has } := by
  simp only [pantryGet, upsertSqlite]
  rw [List.find?_append]
  have hnone : (db.rows.filter (fun r => r.ingredient != key)).find?
      (fun r => r.ingredient == key) = none := by
    rw [List.find?_eq_none]
    intro r hr
    have := (List.mem_filter.mp hr).2
    simpa using this
  rw [hnone]
  simp

/-- A sqlite `INSERT OR REPLACE` does not change lookups of other keys. -/
theorem upsertSqlite_get_ne (db : PantryDb) (key k : String) (h : k ≠ key)
    (has : Bool) :
    pantryGet (upsertSqlite db key has) k = pantryGet db k := by
  simp only [pantryGet, upsertSqlite]
  rw [List.find?_append, find?_filter_ne_key db.rows k key h]
  have hne : (key == k) = false := by
    simp
    exact fun he => h he.symm
  cases hf : db.rows.find? (fun r => r.ingredient == k) with
  | some r => simp
  | none => simp [List.find?, hne]

/-- After a postgres `ON CONFLICT DO UPDATE` upsert, the upserted key maps
to the requested `has_item`. -/
theorem upsertPostgres_hasItem_self (db : PantryDb) (key : String)
    (has : Bool) :
    Option.map PantryRow.has_item (pantryGet (upsertPostgres db key has) key)
      = some has := by
  cases hp : pantryGet db key with
  | none =>
    have : upsertPostgres db key has = pantryInsert db key has := by
      simp [upsertPostgres, hp, pantryInsert]
    rw [this, pantryGet_insert_self hp]
    rfl
  | some r0 =>
    have hp' : db.rows.find? (fun r => r.ingredient == key) = some r0 := hp
    simp only [upsertPostgres, pantryGet, hp', Option.isSome_some, if_true]
    rw [List.find?_map]
    have hpred : ((fun r : PantryRow => r.ingredient == key) ∘ (fun r =>
        if r.ingredient == key then { r with has_item := has } else r)) =
        (fun r : PantryRow => r.ingredient == key) := by
      funext r
      by_cases hr : r.ingredient = key
      · simp [hr]
      · simp [hr]
    rw [hpred, hp']
    have hr0 : r0.ingredient = key := by
      simpa using List.find?_some hp'
    simp [hr0]

/-- A postgres upsert does not change lookups of other keys. -/
theorem upsertPostgres_get_ne (db : PantryDb) (key k : String) (h : k ≠ key)
    (has : Bool) :
    pantryGet (upsertPostgres db key has) k = pantryGet db k := by
  cases hp : pantryGet db key with
  | none =>
    have : upsertPostgres db key has = pantryInsert db key has := by
      simp [upsertPostgres, hp, pantryInsert]
    rw [this, pantryGet_insert_ne h]
  | some r0 =>
    have hp' : db.rows.find? (fun r => r.ingredient == key) = some r0 := hp
    simp only [upsertPostgres, pantryGet, hp', Option.isSome_some, if_true]
    rw [List.find?_map]
    have hpred : ((fun r : PantryRow => r.ingredient == k) ∘ (fun r =>
        if r.ingredient == key then { r with has_item := has } else r)) =
        (fun r : PantryRow => r.ingredient == k) := by
      funext r
      by_cases hr : r.ingredient = key
      · have hne : (r.ingredient == k) = false := by
          simp [hr]
          exact fun he => h he.symm
        simp [hr, hne]
      · simp [hr]
    rw [hpred]
    cases hf : db.rows.find? (fun r => r.ingredient == k) with
    | none => rfl
    | some r =>
      have hrk : r.ingredient = k := by
        simpa using List.find?_some hf
      have hrkey : r.ingredient ≠ key := by
        intro he
        exact h (hrk.symm.trans he)
      simp [hrkey]

/-! ### Projections of `reconcile` -/

theorem reconcile_pantry (gf insf : Nat → Bool) (l : List String)
    (db : PantryDb) :
    (reconcile gf insf l db).pantry =
      (processNextLoop gf insf l 0 0 0 db []).pantry := rfl

theorem reconcile_ops (gf insf : Nat → Bool) (l : List String)
    (db : PantryDb) :
    (reconcile gf insf l db).ops =
      (processNextLoop gf insf l 0 0 0 db []).ops := rfl

theorem reconcile_processed (gf insf : Nat → Bool) (l : List String)
    (db : PantryDb) :
    (reconcile gf insf l db).processedCount =
      (processNextLoop gf insf l 0 0 0 db []).processedCount := rfl

theorem reconcile_added (gf insf : Nat → Bool) (l : List String)
    (db : PantryDb) :
    (reconcile gf insf l db).addedToShoppingList =
      (processNextLoop gf insf l 0 0 0 db []).addedToShoppingList := rfl

theorem reconcile_summary_eq (gf insf : Nat → Bool) (l : List String)
    (db : PantryDb) :
    (reconcile gf insf l db).summary =
      if (processNextLoop gf insf l 0 0 0 db []).ok then
        some { message := "Processados " ++
                 toString (processNextLoop gf insf l 0 0 0 db []).processedCount
                 ++ " ingredientes",
               addedToShoppingList :=
                 (processNextLoop gf insf l 0 0 0 db []).addedToShoppingList,
               ingredients := l }
      else none := rfl

/-! ### The claims -/

/-- Claim C5: the ingredient normalizer splits the raw string on `,` (the
pieces reassemble to the input and contain no comma), trims and
lower-cases each piece in order and drops empty pieces without
deduplicating; the empty input yields the empty sequence (the normalizer
is total, so there are no error conditions); and
`"2 ovos, Sal , queijo ralado,,"` normalizes to
`["2 ovos", "sal", "queijo ralado"]`. -/
theorem spec_C5_normalizer :
    (∀ s : String, joinCommaSpec (jsSplitComma s) = s.data) ∧
    (∀ (s : String) (piece : String), piece ∈ jsSplitComma s →
      ',' ∉ piece.data) ∧
    (∀ s : String, ingredientListOf s =
      ((jsSplitComma s).map (fun piece => jsToLower (jsTrim piece))).filter
        (fun piece => piece.length > 0)) ∧
    ingredientListOf "" = [] ∧
    ingredientListOf "2 ovos, Sal , queijo ralado,," =
      ["2 ovos", "sal", "queijo ralado"] ∧
    ingredientListOf "ovos,ovos" = ["ovos", "ovos"] := by
  refine ⟨?_, ?_, fun s => rfl, by decide, by decide, by decide⟩
  · intro s
    simpa using joinCommaSpec_jsSplitCommaAux s.data []
  · intro s piece hp
    exact jsSplitCommaAux_no_comma s.data [] (by simp) piece hp

/-- Witness for C5 at a concrete input. -/
theorem spec_C5_normalizer_witness :
    ("2 ovos" ∈ jsSplitComma "2 ovos, Sal , queijo ralado,,") ∧
    ',' ∉ "2 ovos".data :=
  ⟨by decide,
   spec_C5_normalizer.2.1 "2 ovos, Sal , queijo ralado,," "2 ovos" (by decide)⟩

/-- Claim C1: a key occurring at least twice in the input and absent from
the pantry ends up with exactly one pantry row; its storage trace is one
lookup plus one insert for the first occurrence and one lookup for each
further occurrence (processed-but-not-added); every ingredient is counted
as processed and the summary is returned.  In particular reconciling
`["ovos", "ovos"]` against an empty pantry gives `processedCount = 2`,
`addedToShoppingList = 1` and a single `ovos` row. -/
theorem spec_C1_duplicate_single_insert (l : List String) (db : PantryDb)
    (key : String) (habs : pantryGet db key = none)
    (hdup : 2 ≤ l.count key) :
    ((reconcile noFailure noFailure l db).pantry.rows.filter
        (fun r => r.ingredient == key)).length = 1 ∧
    (reconcile noFailure noFailure l db).ops.filter
        (fun op => opKey op == key) =
      StoreOp.get key :: StoreOp.insert key false ::
        List.replicate (l.count key - 1) (StoreOp.get key) ∧
    (reconcile noFailure noFailure l db).processedCount = l.length ∧
    (reconcile noFailure noFailure l db).summary.isSome = true ∧
    reconcile noFailure noFailure ["ovos", "ovos"] ⟨[], 1⟩ =
      { summary := some { message := "Processados 2 ingredientes",
                          addedToShoppingList := 1,
                          ingredients := ["ovos", "ovos"] },
        pantry := ⟨[⟨1, "ovos", false⟩], 2⟩,
        ops := [StoreOp.get "ovos", StoreOp.insert "ovos" false,
                StoreOp.get "ovos"],
        processedCount := 2, addedToShoppingList := 1 } := by
  have hmem : key ∈ l := by
    rw [← List.count_pos_iff]
    omega
  have hdb : db.rows.filter (fun r => r.ingredient == key) = [] := by
    rw [List.filter_eq_nil_iff]
    intro r hr
    exact List.find?_eq_none.mp habs r hr
  refine ⟨?_, ?_, ?_, ?_, by decide⟩
  · rw [reconcile_pantry, loop_keycount_clean, hdb, habs]
    simp [hmem]
  · rw [reconcile_ops, loop_keyops_clean, habs]
    rw [List.filter_nil, List.nil_append]
    simp only [Option.isSome_none]
    exact keyTrace_absent key l (by omega)
  · rw [reconcile_processed, loop_processed_clean]
    omega
  · rw [reconcile_summary_eq, loop_ok_clean]
    simp

/-- Witness for C1 at the spec's concrete duplicate example. -/
theorem spec_C1_duplicate_single_insert_witness :
    pantryGet ⟨[], 1⟩ "ovos" = none ∧
    2 ≤ (["ovos", "ovos"] : List String).count "ovos" ∧
    ((reconcile noFailure noFailure ["ovos", "ovos"] ⟨[], 1⟩).pantry.rows.filter
        (fun r => r.ingredient == "ovos")).length = 1 :=
  ⟨by decide, by decide,
   (spec_C1_duplicate_single_insert ["ovos", "ovos"] ⟨[], 1⟩ "ovos"
     (by decide) (by decide)).1⟩

/-- Claim C2: per-ingredient contract of the reconciler.  An existing
record (whatever its `has_item`) is counted as processed with no
mutation; a missing record is inserted with `has_item = false` and
counted as processed and added.  In particular, reconciling
`["arroz", "feijão"]` against a pantry holding `arroz` (has_item true)
gives `processedCount = 2`, `addedToShoppingList = 1`, a `feijão` row
with `has_item = false`, and the `arroz` row untouched. -/
theorem spec_C2_per_ingredient_contract (db : PantryDb) (ing : String) :
    ((pantryGet db ing).isSome = true →
      processIngredient false false ing db =
        (some (false, db), [StoreOp.get ing])) ∧
    (pantryGet db ing = none →
      processIngredient false false ing db =
        (some (true, pantryInsert db ing false),
         [StoreOp.get ing, StoreOp.insert ing false]) ∧
      pantryGet (pantryInsert db ing false) ing =
        some { id := db.nextId, ingredient := ing, has_item := false }) ∧
    reconcile noFailure noFailure ["arroz", "feijão"]
        ⟨[⟨1, "arroz", true⟩], 2⟩ =
      { summary := some { message := "Processados 2 ingredientes",
                          addedToShoppingList := 1,
                          ingredients := ["arroz", "feijão"] },
        pantry := ⟨[⟨1, "arroz", true⟩, ⟨2, "feijão", false⟩], 3⟩,
        ops := [StoreOp.get "arroz", StoreOp.get "feijão",
                StoreOp.insert "feijão" false],
        processedCount := 2, addedToShoppingList := 1 } := by
  refine ⟨?_, ?_, by decide⟩
  · intro h
    obtain ⟨r0, hr⟩ := Option.isSome_iff_exists.mp h
    simp [processIngredient, hr]
  · intro h
    exact ⟨by simp [processIngredient, h], pantryGet_insert_self h false⟩

/-- Witness for C2 on the spec's arroz/feijão pantry. -/
theorem spec_C2_per_ingredient_contract_witness :
    (pantryGet ⟨[⟨1, "arroz", true⟩], 2⟩ "arroz").isSome = true ∧
    processIngredient false false "arroz" ⟨[⟨1, "arroz", true⟩], 2⟩ =
      (some (false, ⟨[⟨1, "arroz", true⟩], 2⟩), [StoreOp.get "arroz"]) ∧
    pantryGet ⟨[⟨1, "arroz", true⟩], 2⟩ "feijão" = none ∧
    (processIngredient false false "feijão" ⟨[⟨1, "arroz", true⟩], 2⟩ =
      (some (true, pantryInsert ⟨[⟨1, "arroz", true⟩], 2⟩ "feijão" false),
       [StoreOp.get "feijão", StoreOp.insert "feijão" false]) ∧
     pantryGet (pantryInsert ⟨[⟨1, "arroz", true⟩], 2⟩ "feijão" false)
         "feijão" =
       some { id := 2, ingredient := "feijão", has_item := false }) :=
  ⟨by decide,
   (spec_C2_per_ingredient_contract ⟨[⟨1, "arroz", true⟩], 2⟩ "arroz").1
     (by decide),
   by decide,
   (spec_C2_per_ingredient_contract ⟨[⟨1, "arroz", true⟩], 2⟩ "feijão").2.1
     (by decide)⟩

/-- Claim C3 as stated is false on the code: the success body of a
reconciliation has no `processedCount` field — the count is embedded in
the `message` string instead. -/
theorem spec_C3_counterexample :
    (reconcile noFailure noFailure ["ovos"] ⟨[], 1⟩).summary =
      some { message := "Processados 1 ingredientes",
             addedToShoppingList := 1, ingredients := ["ovos"] } ∧
    (summaryJson { message := "Processados 1 ingredientes",
                   addedToShoppingList := 1,
                   ingredients := ["ovos"] }).lookup "processedCount" =
      none := by decide

/-- Claim C3 (amended): on success the summary's `message` string embeds
the processed count, which equals the length of the normalized input; the
`addedToShoppingList` field equals the number of newly inserted pantry
rows; the `ingredients` field is the normalized input sequence; and the
JSON body carries exactly the fields
`message`/`addedToShoppingList`/`ingredients`, with no `processedCount`. -/
theorem spec_C3_amended (gf insf : Nat → Bool) (l : List String)
    (db : PantryDb) (s : Summary)
    (h : (reconcile gf insf l db).summary = some s) :
    s.message = "Processados " ++
      toString (reconcile gf insf l db).processedCount ++ " ingredientes" ∧
    (reconcile gf insf l db).processedCount = l.length ∧
    s.addedToShoppingList = (reconcile gf insf l db).addedToShoppingList ∧
    s.addedToShoppingList + db.rows.length =
      (reconcile gf insf l db).pantry.rows.length ∧
    s.ingredients = l ∧
    (summaryJson s).lookup "message" = some (JsonVal.str s.message) ∧
    (summaryJson s).lookup "addedToShoppingList" =
      some (JsonVal.num s.addedToShoppingList) ∧
    (summaryJson s).lookup "ingredients" =
      some (JsonVal.list s.ingredients) ∧
    (summaryJson s).lookup "processedCount" = none := by
  rw [reconcile_summary_eq] at h
  cases hok : (processNextLoop gf insf l 0 0 0 db []).ok with
  | false => rw [hok] at h; simp at h
  | true =>
    rw [hok] at h
    simp only [if_true] at h
    have hs := Option.some.inj h
    subst hs
    have hadded := loop_added_rows gf insf l 0 0 0 db []
    refine ⟨?_, ?_, rfl, ?_, rfl, ?_, ?_, ?_, ?_⟩
    · rw [reconcile_processed]
    · rw [reconcile_processed, loop_ok_processed gf insf l 0 0 0 db [] hok]
      omega
    · rw [reconcile_pantry]
      show (processNextLoop gf insf l 0 0 0 db []).addedToShoppingList +
          db.rows.length =
        (processNextLoop gf insf l 0 0 0 db []).pantry.rows.length
      omega
    · simp [summaryJson, List.lookup]
    · simp [summaryJson, List.lookup]
    · simp [summaryJson, List.lookup]
    · simp [summaryJson, List.lookup]

/-- Witness for the amended C3 at a concrete successful call. -/
theorem spec_C3_amended_witness :
    (reconcile noFailure noFailure ["ovos"] ⟨[], 1⟩).summary =
      some { message := "Processados 1 ingredientes",
             addedToShoppingList := 1, ingredients := ["ovos"] } ∧
    ({ message := "Processados 1 ingredientes", addedToShoppingList := 1,
       ingredients := ["ovos"] } : Summary).addedToShoppingList +
        (⟨[], 1⟩ : PantryDb).rows.length =
      (reconcile noFailure noFailure ["ovos"] ⟨[], 1⟩).pantry.rows.length :=
  ⟨by decide,
   (spec_C3_amended noFailure noFailure ["ovos"] ⟨[], 1⟩
     { message := "Processados 1 ingredientes", addedToShoppingList := 1,
       ingredients := ["ovos"] } (by decide)).2.2.2.1⟩

/-- Claim C4: a storage failure at the k-th ingredient (a failing lookup,
or a failing insert after the lookup missed) aborts the remaining
processing and surfaces the failure: the summary is never returned, the
op log is exactly the failure-free log of the first `k` ingredients plus
the failing operation(s) at position `k` (so nothing after position `k`
is looked up or inserted), and the pantry equals the failure-free pantry
of the first `k` ingredients (prior inserts stay committed, no
rollback). -/
theorem spec_C4_storage_failure_aborts (gf insf : Nat → Bool)
    (l : List String) (db : PantryDb) (k : Nat) (hk : k < l.length)
    (hclean : ∀ j, j < k → gf j = false ∧ insf j = false) :
    (gf k = true →
      (reconcile gf insf l db).summary = none ∧
      (reconcile gf insf l db).pantry =
        (reconcile noFailure noFailure (l.take k) db).pantry ∧
      (reconcile gf insf l db).ops =
        (reconcile noFailure noFailure (l.take k) db).ops ++
          [StoreOp.get (l.get ⟨k, hk⟩)] ∧
      (reconcile gf insf l db).processedCount = k ∧
      (reconcile gf insf l db).addedToShoppingList =
        (reconcile noFailure noFailure (l.take k) db).addedToShoppingList) ∧
    (gf k = false → insf k = true →
      pantryGet (reconcile noFailure noFailure (l.take k) db).pantry
        (l.get ⟨k, hk⟩) = none →
      (reconcile gf insf l db).summary = none ∧
      (reconcile gf insf l db).pantry =
        (reconcile noFailure noFailure (l.take k) db).pantry ∧
      (reconcile gf insf l db).ops =
        (reconcile noFailure noFailure (l.take k) db).ops ++
          [StoreOp.get (l.get ⟨k, hk⟩),
           StoreOp.insert (l.get ⟨k, hk⟩) false] ∧
      (reconcile gf insf l db).processedCount = k ∧
      (reconcile gf insf l db).addedToShoppingList =
        (reconcile noFailure noFailure (l.take k) db).addedToShoppingList) := by
  have hclean0 : ∀ j, j < k → gf (0 + j) = false ∧ insf (0 + j) = false := by
    intro j hj
    simpa using hclean j hj
  have hptake : ((l.take k).length) = k := by
    rw [List.length_take]
    omega
  constructor
  · intro hfail
    have hsplit := loop_getfail_split gf insf l k 0 0 0 db [] hk hclean0
      (by simpa using hfail)
    refine ⟨?_, ?_, ?_, ?_, ?_⟩
    · rw [reconcile_summary_eq, hsplit]
      simp
    · rw [reconcile_pantry, reconcile_pantry, hsplit]
    · rw [reconcile_ops, reconcile_ops, hsplit]
    · rw [reconcile_processed, hsplit]
      show (processNextLoop noFailure noFailure (l.take k) 0 0 0 db
        []).processedCount = k
      rw [loop_processed_clean]
      omega
    · rw [reconcile_added, reconcile_added, hsplit]
  · intro hg hfail habs
    rw [reconcile_pantry] at habs
    have hsplit := loop_insfail_split gf insf l k 0 0 0 db [] hk hclean0
      (by simpa using hg) (by simpa using hfail) habs
    refine ⟨?_, ?_, ?_, ?_, ?_⟩
    · rw [reconcile_summary_eq, hsplit]
      simp
    · rw [reconcile_pantry, reconcile_pantry, hsplit]
    · rw [reconcile_ops, reconcile_ops, hsplit]
    · rw [reconcile_processed, hsplit]
      show (processNextLoop noFailure noFailure (l.take k) 0 0 0 db
        []).processedCount = k
      rw [loop_processed_clean]
      omega
    · rw [reconcile_added, reconcile_added, hsplit]

/-- Witness for C4: a lookup failure on the third of five ingredients. -/
theorem spec_C4_storage_failure_aborts_witness :
    2 < (["a", "b", "c", "d", "e"] : List String).length ∧
    (∀ j, j < 2 → (fun i => decide (i = 2)) j = false ∧ noFailure j = false) ∧
    (reconcile (fun i => decide (i = 2)) noFailure ["a", "b", "c", "d", "e"]
      ⟨[], 1⟩).summary = none ∧
    (reconcile (fun i => decide (i = 2)) noFailure ["a", "b", "c", "d", "e"]
        ⟨[], 1⟩).pantry =
      (reconcile noFailure noFailure
        ((["a", "b", "c", "d", "e"] : List String).take 2) ⟨[], 1⟩).pantry := by
  refine ⟨by decide, by decide, ?_, ?_⟩
  · exact (((spec_C4_storage_failure_aborts (fun i => decide (i = 2))
      noFailure ["a", "b", "c", "d", "e"] ⟨[], 1⟩ 2 (by decide)
      (by decide)).1) (by decide)).1
  · exact (((spec_C4_storage_failure_aborts (fun i => decide (i = 2))
      noFailure ["a", "b", "c", "d", "e"] ⟨[], 1⟩ 2 (by decide)
      (by decide)).1) (by decide)).2.1

/-- Claim C6 is right about the reconciler but violated by the pantry
upsert endpoint: `POST /api/pantry` stores the raw request key without
trimming or lower-casing, so posting `"Ovos"` to a pantry already holding
`"ovos"` creates a second row whose normalized key coincides with the
first — the case-insensitive uniqueness invariant is broken. -/
theorem spec_C6_upsert_skips_normalization :
    postPantryRoute ⟨[⟨1, "ovos", true⟩], 2⟩ "Ovos" (JsVal.bool true) =
      some ⟨[⟨1, "ovos", true⟩, ⟨2, "Ovos", true⟩], 3⟩ ∧
    jsToLower (jsTrim "Ovos") = "ovos" ∧
    ((⟨[⟨1, "ovos", true⟩, ⟨2, "Ovos", true⟩], 3⟩ : PantryDb).rows.map
      (fun r => jsToLower (jsTrim r.ingredient))) = ["ovos", "ovos"] ∧
    ingredientListOf "Ovos" = ["ovos"] := by decide

/-- Claim C7: once a reconciliation of a list has succeeded, a second
reconciliation of the same list (under any failure schedule) counts
nothing as added to the shopping list. -/
theorem spec_C7_second_run_adds_nothing (g1 i1 g2 i2 : Nat → Bool)
    (l : List String) (db : PantryDb)
    (h : (reconcile g1 i1 l db).summary.isSome = true) :
    (reconcile g2 i2 l (reconcile g1 i1 l db).pantry).addedToShoppingList
      = 0 := by
  have hok : (processNextLoop g1 i1 l 0 0 0 db []).ok = true := by
    rw [reconcile_summary_eq] at h
    cases hok : (processNextLoop g1 i1 l 0 0 0 db []).ok with
    | true => rfl
    | false => rw [hok] at h; simp at h
  have hall := loop_ok_all_present g1 i1 l 0 0 0 db [] hok
  rw [reconcile_added, reconcile_pantry]
  exact (loop_all_present_frozen g2 i2 l 0 0 0
    (processNextLoop g1 i1 l 0 0 0 db []).pantry [] hall).1

/-- Witness for C7 at a concrete pair of runs. -/
theorem spec_C7_second_run_adds_nothing_witness :
    (reconcile noFailure noFailure ["ovos", "sal"] ⟨[], 1⟩).summary.isSome
      = true ∧
    (reconcile noFailure noFailure ["ovos", "sal"]
      (reconcile noFailure noFailure ["ovos", "sal"]
        ⟨[], 1⟩).pantry).addedToShoppingList = 0 :=
  ⟨by decide,
   spec_C7_second_run_adds_nothing noFailure noFailure noFailure noFailure
     ["ovos", "sal"] ⟨[], 1⟩ (by decide)⟩

/-- Claim C8: an absent or empty `ingredients` body field is rejected with
a 400 client error before any storage access: the pantry is unchanged and
no lookup or insert is attempted. -/
theorem spec_C8_missing_input_client_error (gf insf : Nat → Bool)
    (db : PantryDb) (ingredients : Option String)
    (h : ingredients = none ∨ ingredients = some "") :
    processIngredientsRoute gf insf db ingredients =
      { status := 400, pantry := db, ops := [], summary := none } := by
  rcases h with h | h <;> subst h <;> rfl

/-- Witness for C8 for both the absent and the empty case. -/
theorem spec_C8_missing_input_client_error_witness :
    processIngredientsRoute noFailure noFailure ⟨[⟨1, "ovos", true⟩], 2⟩
        none =
      { status := 400, pantry := ⟨[⟨1, "ovos", true⟩], 2⟩, ops := [],
        summary := none } ∧
    processIngredientsRoute noFailure noFailure ⟨[⟨1, "ovos", true⟩], 2⟩
        (some "") =
      { status := 400, pantry := ⟨[⟨1, "ovos", true⟩], 2⟩, ops := [],
        summary := none } :=
  ⟨spec_C8_missing_input_client_error noFailure noFailure
     ⟨[⟨1, "ovos", true⟩], 2⟩ none (Or.inl rfl),
   spec_C8_missing_input_client_error noFailure noFailure
     ⟨[⟨1, "ovos", true⟩], 2⟩ (some "") (Or.inr rfl)⟩

/-- Claim C9: a pantry upsert whose `has_item` is absent (undefined) or
any other falsy value stores the row with `has_item = false` — the
endpoint always passes `has_item ? 1 : 0` explicitly, so the schema's
declared column default of `true` is never used. -/
theorem spec_C9_falsy_has_item_stored_false (db : PantryDb)
    (ingredient : String) (v : JsVal) (hing : ingredient ≠ "")
    (hv : truthy v = false) :
    postPantryRoute db ingredient v =
      some (upsertSqlite db ingredient false) ∧
    pantryGet (upsertSqlite db ingredient false) ingredient =
      some { id := db.nextId, ingredient := ingredient, has_item := false } ∧
    truthy JsVal.undef = false ∧
    pantryHasItemDefault = true ∧
    false ≠ pantryHasItemDefault := by
  refine ⟨?_, upsertSqlite_get_self db ingredient false, rfl, rfl, by decide⟩
  have h1 : (ingredient == "") = false := by
    simp [hing]
  simp [postPantryRoute, h1, hv]

/-- Witness for C9: an upsert with the `has_item` field absent. -/
theorem spec_C9_falsy_has_item_stored_false_witness :
    ("ovos" : String) ≠ "" ∧ truthy JsVal.undef = false ∧
    postPantryRoute ⟨[], 1⟩ "ovos" JsVal.undef =
      some (upsertSqlite ⟨[], 1⟩ "ovos" false) ∧
    pantryGet (upsertSqlite ⟨[], 1⟩ "ovos" false) "ovos" =
      some { id := 1, ingredient := "ovos", has_item := false } :=
  ⟨by decide, by decide,
   (spec_C9_falsy_has_item_stored_false ⟨[], 1⟩ "ovos" JsVal.undef
     (by decide) (by decide)).1,
   (spec_C9_falsy_has_item_stored_false ⟨[], 1⟩ "ovos" JsVal.undef
     (by decide) (by decide)).2.1⟩

/-- Claim C10: the sqlite `INSERT OR REPLACE` upsert and the postgres
`ON CONFLICT DO UPDATE` upsert agree on the ingredient-to-has_item
mapping for every pantry state, key and value; they differ in row
identity: on a conflicting key sqlite produces a fresh row id while
postgres keeps the existing one. -/
theorem spec_C10_upsert_variants_agree :
    (∀ (db : PantryDb) (key : String) (has : Bool) (k : String),
      Option.map PantryRow.has_item (pantryGet (upsertSqlite db key has) k) =
        Option.map PantryRow.has_item
          (pantryGet (upsertPostgres db key has) k)) ∧
    Option.map PantryRow.id
      (pantryGet (upsertSqlite ⟨[⟨1, "ovos", true⟩], 2⟩ "ovos" false) "ovos")
      = some 2 ∧
    Option.map PantryRow.id
      (pantryGet (upsertPostgres ⟨[⟨1, "ovos", true⟩], 2⟩ "ovos" false)
        "ovos") = some 1 := by
  refine ⟨?_, by decide, by decide⟩
  intro db key has k
  by_cases hkk : k = key
  · subst hkk
    rw [upsertSqlite_get_self, upsertPostgres_hasItem_self]
    rfl
  · rw [upsertSqlite_get_ne db key k hkk has,
      upsertPostgres_get_ne db key k hkk has]
